import Mathlib

/-!
Verification of the route-direction component (`src/MapViewDirections.tsx`).

The development shallowly embeds the component's pure logic:
* the polyline decoder `decode` (source lines 71-101), with JavaScript
  32-bit bitwise semantics made explicit on `Int`;
* the waypoint chunker building the `routes` array (lines 122-150);
* the per-route request-string construction (lines 153-182);
* the `Promise.all` join and result aggregation (lines 193-229);
* the response handling of `fetchRoute` (lines 255-324).

JavaScript numbers are modelled as `ℚ` where only field arithmetic is
performed (sums, divisions by constants), and as `Int`/`Nat` where the
source forces 32-bit integer semantics through bitwise operators.
-/

/-- A geographic point, source type `Marker` (latitude/longitude). -/
structure Marker where
  latitude : ℚ
  longitude : ℚ
deriving Repr, DecidableEq, Inhabited

/-- Source type `Route`: one provider-bound segment. -/
structure Route where
  waypoints : List Marker
  origin : Marker
  destination : Marker
deriving Repr, DecidableEq

/-- The waypoint limit constant `WAYPOINT_LIMIT = 10`. -/
def WAYPOINT_LIMIT : Nat := 10

/-! ## JavaScript 32-bit integer semantics

The decoder uses the JS operators `|`, `&`, `<<`, `>>`, `~` which first
coerce their operands with ToInt32 (two's-complement wrap to
`[-2^31, 2^31)`), and `charCodeAt` out of range yields `NaN`, which
ToInt32 maps to `0` and which compares `false` under `>=`. -/

/-- Wrap an integer to an unsigned 32-bit natural (the bit pattern). -/
def toUInt32n (i : Int) : Nat := (i % (2 ^ 32 : Nat)).toNat

/-- Reinterpret an unsigned 32-bit bit pattern as a signed 32-bit value. -/
def ofInt32 (n : Nat) : Int :=
  if n < 2 ^ 31 then (n : Int) else (n : Int) - 2 ^ 32

/-- JS ToInt32 coercion. -/
def toInt32 (i : Int) : Int := ofInt32 (toUInt32n i)

/-- JS bitwise and on numbers. -/
def jsAnd (a b : Int) : Int := ofInt32 (Nat.land (toUInt32n a) (toUInt32n b))

/-- JS bitwise or on numbers. -/
def jsOr (a b : Int) : Int := ofInt32 (Nat.lor (toUInt32n a) (toUInt32n b))

/-- JS left shift `a << s` (shift count taken mod 32, result wrapped). -/
def jsShl (a : Int) (s : Nat) : Int :=
  ofInt32 ((toUInt32n a) <<< (s % 32) % 2 ^ 32)

/-- JS signed (arithmetic) right shift `a >> s`. -/
def jsSar (a : Int) (s : Nat) : Int :=
  Int.fdiv (toInt32 a) (2 ^ (s % 32))

/-- JS bitwise not `~a`. -/
def jsNot (a : Int) : Int := -(toInt32 a) - 1

/-! ## The polyline decoder (`decode`, source lines 71-101)

A JS string is modelled as its list of UTF-16 code units; `charAt(i)`
followed by `charCodeAt(0)` is `List.get?`, with `none` standing for the
`NaN` produced on an out-of-range index. -/

/-- One step record of the decoder input: `step.polyline.points`. -/
structure Polyline where
  points : List Nat
deriving Repr, DecidableEq

/-- One element of the list passed to `decode`. -/
structure Step where
  polyline : Polyline
deriving Repr, DecidableEq

/-- The inner `do { b = encoded.charAt(index++).charCodeAt(0) - 63;
result |= (b & 0x1f) << shift; shift += 5; } while (b >= 0x20)` loop.
Returns the final `result` and the final `index`.  An out-of-range read
gives `b = NaN`: `NaN & 0x1f` is `0` and `NaN >= 0x20` is false, so the
loop exits after that iteration. -/
def parseChunks (s : List Nat) (index : Nat) (shift : Nat) (result : Int) :
    Int × Nat :=
  match h : s[index]? with
  | some c =>
      let b : Int := (c : Int) - 63
      let result' := jsOr result (jsShl (jsAnd b 31) shift)
      if b ≥ 32 then
        parseChunks s (index + 1) (shift + 5) result'
      else
        (result', index + 1)
  | none =>
      -- b = NaN: `NaN & 0x1f = 0`, so `result |= 0 << shift`; loop exits.
      (jsOr result (jsShl (jsAnd 0 31) shift), index + 1)
termination_by s.length - index
decreasing_by
  have hlt : index < s.length := by
    by_contra hc
    rw [List.getElem?_eq_none (by omega)] at h
    exact Option.noConfusion h
  omega

/-- The zigzag step `((result & 1) != 0 ? ~(result >> 1) : (result >> 1))`. -/
def jsZigzag (result : Int) : Int :=
  if jsAnd result 1 ≠ 0 then jsNot (jsSar result 1) else jsSar result 1

/-- The outer `while (index < len)` loop of `decode`: parse a latitude
delta and a longitude delta, accumulate them, emit a point scaled by
`1E5`, repeat. -/
def decodeLoop (s : List Nat) (index : Nat) (lat lng : Int) : List Marker :=
  if h : index < s.length then
    let p1 := parseChunks s index 0 0
    let lat' := lat + jsZigzag p1.1
    let p2 := parseChunks s p1.2 0 0
    let lng' := lng + jsZigzag p2.1
    { latitude := (lat' : ℚ) / 100000, longitude := (lng' : ℚ) / 100000 }
      :: decodeLoop s p2.2 lat' lng'
  else []
termination_by s.length - index
decreasing_by
  have key : ∀ n index shift result, s.length - index ≤ n →
      index < (parseChunks s index shift result).2 := by
    intro n
    induction n with
    | zero =>
        intro index shift result hle
        rw [parseChunks, List.getElem?_eq_none (by omega)]
        simp
    | succ n ih =>
        intro index shift result hle
        rw [parseChunks]
        split
        · next c hc =>
            have hlt : index < s.length := by
              by_contra hcon
              rw [List.getElem?_eq_none (by omega)] at hc
              exact Option.noConfusion hc
            dsimp only
            split
            · have := ih (index + 1) (shift + 5)
                (jsOr result (jsShl (jsAnd ((c : Int) - 63) 31) shift)) (by omega)
              omega
            · simp
        · simp
  have h1 := key s.length index 0 0 (by omega)
  have h2 := key s.length (parseChunks s index 0 0).2 0 0 (by omega)
  omega

/-- `decode` (source lines 71-101): decode every step's encoded string,
each with fresh running totals, and concatenate the points in order. -/
def decode (t : List Step) : List Marker :=
  t.flatMap (fun step => decodeLoop step.polyline.points 0 0 0)

/-! ## The classic polyline algorithm, stated from the specification

For the refinement claim, a second decoder written from §4.1 of the spec:
chunks are code points minus 63 (low 5 bits data, bit 5 continuation),
accumulated little-endian, zigzag-decoded, alternating latitude and
longitude deltas.  Well-formedness, under which the 32-bit source
algorithm is exact, requires every chunk to be a 6-bit value (code point
in `[63, 126]`), at most 6 chunks per delta, and an accumulated integer
below `2 ^ 31`. -/

/-- Spec §4.1: parse one variable-length delta from the front of the
string, returning its accumulated non-negative integer, the number of
chunks consumed, and the rest.  Fails on an out-of-range code point or a
truncated run. -/
def specVarint : List Nat → Option (Nat × Nat × List Nat)
  | [] => none
  | c :: rest =>
      if c < 63 ∨ 126 < c then none
      else if c < 95 then some (c - 63, 1, rest)
      else
        match specVarint rest with
        | some (v, k, r) => some ((c - 95) + 32 * v, k + 1, r)
        | none => none

/-- Spec §4.1 zigzag decoding of a non-negative accumulated integer:
`(result & 1) ? ~(result >> 1) : (result >> 1)`. -/
def specZigzag (v : Nat) : Int :=
  if v % 2 = 1 then -((v / 2 : Nat) : Int) - 1 else ((v / 2 : Nat) : Int)

/-- One well-formed delta: a varint of at most 6 chunks accumulating to
an integer below `2 ^ 31`, zigzag-decoded. -/
def specDelta (s : List Nat) : Option (Int × List Nat) :=
  match specVarint s with
  | some (v, k, r) => if k ≤ 6 ∧ v < 2 ^ 31 then some (specZigzag v, r) else none
  | none => none

/-- Spec §4.1 decoding of one encoded string: alternating latitude and
longitude deltas accumulated onto running totals seeded at zero, each
pair emitted divided by `1e5`; `none` on input that is not well-formed.
Every iteration consumes at least one character, so the iteration count
is bounded by the string length, which fuels the recursion; running out
of fuel on a non-empty remainder also marks the input ill-formed (with
the length itself as fuel this never happens, see
`specDecodePoints_cons`). -/
def specDecodePointsF : Nat → List Nat → Int → Int → Option (List Marker)
  | _, [], _, _ => some []
  | 0, _ :: _, _, _ => none
  | fuel + 1, c :: rest, lat, lng =>
      match specDelta (c :: rest) with
      | none => none
      | some (dlat, r1) =>
          match specDelta r1 with
          | none => none
          | some (dlng, r2) =>
              match specDecodePointsF fuel r2 (lat + dlat) (lng + dlng) with
              | none => none
              | some pts =>
                  some ({ latitude := ((lat + dlat : Int) : ℚ) / 100000,
                          longitude := ((lng + dlng : Int) : ℚ) / 100000 } :: pts)

/-- The spec decoder, fueled by the input length. -/
def specDecodePoints (s : List Nat) (lat lng : Int) : Option (List Marker) :=
  specDecodePointsF s.length s lat lng

/-- A well-formed encoded polyline string: the spec algorithm decodes it
completely. -/
def WellFormedPolyline (s : List Nat) : Prop := (specDecodePoints s 0 0).isSome

/-! ## The waypoint chunker (source lines 122-150)

`waypoints.reduce(...)` groups the waypoints into the accumulator slot
`Math.floor(index / WAYPOINT_LIMIT)`; the subsequent `for` loop derives
each chunk's origin and destination. -/

/-- One reduce step: `accumulator[numChunk] =
[].concat((accumulator[numChunk] || []), waypoint)`.  A JS write past the
current length fills the gap with empty slots (`undefined || []`). -/
def setChunk (acc : List (List Marker)) (numChunk : Nat) (w : Marker) :
    List (List Marker) :=
  if numChunk < acc.length then
    acc.set numChunk (acc.getD numChunk [] ++ [w])
  else
    acc ++ List.replicate (numChunk - acc.length) [] ++ [[w]]

/-- The `chunckedWaypoints` reduce (source lines 124-128). -/
def chunckedWaypoints (waypoints : List Marker) : List (List Marker) :=
  waypoints.enum.foldl
    (fun accumulator iw => setChunk accumulator (iw.1 / WAYPOINT_LIMIT) iw.2) []

/-- The `routes` array built by `fetchAndRenderRoute` (source lines
118-150): split into chunks when `splitWaypoints && waypoints &&
waypoints.length > WAYPOINT_LIMIT`, else a single route.  The source
indexes `chunckedWaypoints[i-1][length-1]` and `chunckedWaypoints[i+1][0]`;
these accesses are modelled with defaults, and are in range for every
index the loop reaches. -/
def makeRoutes (origin destination : Marker) (waypoints : Option (List Marker))
    (splitWaypoints : Bool) : List Route :=
  match waypoints with
  | some ws =>
      if splitWaypoints ∧ ws.length > WAYPOINT_LIMIT then
        let chunks := chunckedWaypoints ws
        (List.range chunks.length).map (fun i =>
          { waypoints := chunks.getD i [],
            origin := if i = 0 then origin
                      else (chunks.getD (i - 1) []).getLastD default,
            destination := if i = chunks.length - 1 then destination
                           else (chunks.getD (i + 1) []).headD default })
      else [{ waypoints := ws, origin := origin, destination := destination }]
  | none => [{ waypoints := [], origin := origin, destination := destination }]

/-! ## Per-segment results and aggregation (source lines 193-229) -/

/-- One leg record of a provider route (`legs[i]`), with the fields the
source reads: `distance.value`, `duration.value`, the optional
`duration_in_traffic.value`, and `steps`. -/
structure LegJson where
  distance_value : ℚ
  duration_value : ℚ
  duration_in_traffic : Option ℚ
  steps : List Step
deriving Repr, DecidableEq

/-- The object `fetchRoute` resolves with for one segment. -/
structure SegResult where
  distance : ℚ
  duration : ℚ
  coordinates : List Marker
  fare : Option String
  legs : List LegJson
  waypointOrder : List Nat
deriving Repr, DecidableEq

/-- The accumulator of the combining reduce (source lines 195-220); its
initial value is given on lines 213-220. -/
structure AggResult where
  coordinates : List Marker
  distance : ℚ
  duration : ℚ
  fares : List (Option String)
  legs : List LegJson
  waypointOrder : List (List Nat)
deriving Repr, DecidableEq

/-- One step of the combining reduce (source lines 195-212).  Note that
`acc.legs = legs` overwrites rather than appends. -/
def aggregateStep (acc : AggResult) (r : SegResult) : AggResult :=
  { coordinates := acc.coordinates ++ r.coordinates,
    distance := acc.distance + r.distance,
    duration := acc.duration + r.duration,
    fares := acc.fares ++ [r.fare],
    legs := r.legs,
    waypointOrder := acc.waypointOrder ++ [r.waypointOrder] }

/-- The reduce's initial accumulator (source lines 213-220). -/
def emptyAgg : AggResult :=
  { coordinates := [], distance := 0, duration := 0, fares := [], legs := [],
    waypointOrder := [] }

/-- The combining reduce over all segment results, in segment order. -/
def aggregate (results : List SegResult) : AggResult :=
  results.foldl aggregateStep emptyAgg

/-! ## The `Promise.all` join (source lines 153-229)

Each segment's fetch settles to either a result or a rejection message;
the settled values are taken in segment order, with the first rejection
in that order standing for the first observed failure. -/

/-- `Promise.all` over the per-segment outcomes: all fulfilled yields the
list of results, otherwise the first rejection wins. -/
def collectAll : List (Except String SegResult) → Except String (List SegResult)
  | [] => .ok []
  | .ok r :: rest => (collectAll rest).map (fun rs => r :: rs)
  | .error e :: rest => .error e

/-- The first rejection among the outcomes, if any. -/
def firstFailure (outcomes : List (Except String SegResult)) : Option String :=
  outcomes.findSome? (fun o => match o with | .error e => some e | .ok _ => none)

/-- What one orchestration run does to the observable state: the
`coordinates` state rendered afterwards, plus the arguments of every
`onReady` and `onError` call made. -/
structure OrchOutcome where
  coordinates : Option (List Marker)
  readyCalls : List AggResult
  errorCalls : List String
deriving Repr, DecidableEq

/-- The `.then`/`.catch` continuation of the `Promise.all` (source lines
193-229): on success aggregate, render and call `onReady`; on failure
`resetState()` (clearing any previously displayed path) and call
`onError` with the rejection message. -/
def promiseAllJoin (outcomes : List (Except String SegResult)) : OrchOutcome :=
  match collectAll outcomes with
  | .ok results =>
      let result := aggregate results
      { coordinates := some result.coordinates,
        readyCalls := [result], errorCalls := [] }
  | .error e =>
      { coordinates := none, readyCalls := [], errorCalls := [e] }

/-! ## Request-string construction (source lines 153-182)

JS templates print an integral number as its decimal digits.  A
non-integral double prints as the shortest decimal that denotes it; the
rationals standing for such doubles are printed by exact decimal
expansion, which agrees with JS whenever the printed decimal denotes the
modelled rational (true of every coordinate literal).  A plain object
prints as `[object Object]`, and an array as its elements printed and
joined with commas. -/

/-- Exponent of 2 in a natural number. -/
def twoAdicity (n : Nat) : Nat :=
  if h : n % 2 = 0 ∧ 2 ≤ n then 1 + twoAdicity (n / 2) else 0
termination_by n
decreasing_by omega

/-- Exponent of 5 in a natural number. -/
def fiveAdicity (n : Nat) : Nat :=
  if h : n % 5 = 0 ∧ 2 ≤ n then 1 + fiveAdicity (n / 5) else 0
termination_by n
decreasing_by omega

/-- JS number-to-string for the rational denoted by a double: decimal
digits for integral values, otherwise sign, integer part, `.`, and the
exact fraction digits (the denominator of a double divides `10 ^ k`). -/
def jsNumString (q : ℚ) : String :=
  if q.den = 1 then toString q.num
  else
    let k := max (twoAdicity q.den) (fiveAdicity q.den)
    if (q.den : Nat) ∣ 10 ^ k then
      let scaled := q.num.natAbs * (10 ^ k / q.den)
      let s := toString scaled
      let s := String.mk (List.replicate (k + 1 - s.length) '0') ++ s
      (if q.num < 0 then "-" else "") ++
        (s.take (s.length - k)) ++ "." ++ (s.drop (s.length - k))
    else toString q

/-- JS truthiness of a number: `0` (and `NaN`, not modelled) is falsy. -/
def qTruthy (q : ℚ) : Bool := q ≠ 0

/-- The template `` `${m.latitude},${m.longitude}` ``. -/
def coordString (m : Marker) : String :=
  jsNumString m.latitude ++ "," ++ jsNumString m.longitude

/-- `originString` (source lines 155-160): set only when both
coordinates are truthy. -/
def originStringOf (origin : Marker) : String :=
  if qTruthy origin.latitude && qTruthy origin.longitude then
    coordString origin
  else ""

/-- `destinationString` (source lines 156-164). -/
def destinationStringOf (destination : Marker) : String :=
  if qTruthy destination.latitude && qTruthy destination.longitude then
    coordString destination
  else ""

/-- JS `String()` of a plain object. -/
def jsObjectString : String := "[object Object]"

/-- One element of the `waypoints.map(...)` callback (source line 168):
a `"lat,lng"` string when both coordinates are truthy, else the raw
waypoint object, which `join` then prints as `[object Object]`. -/
def waypointEntryString (w : Marker) : String :=
  if qTruthy w.latitude && qTruthy w.longitude then coordString w
  else jsObjectString

/-- The template `` `${waypoints}` `` applied to the raw waypoint array
(source line 173): JS array-to-string prints every element and joins
with commas; each element is a plain object. -/
def jsArrayString (waypoints : List Marker) : String :=
  String.intercalate "," (waypoints.map (fun _ => jsObjectString))

/-- `waypointsString` (source lines 165-174): the mapped entries joined
with `|`; when `optimizeWaypoints` is set the string is rebuilt as
`` `optimize:true|${waypoints}` `` from the raw array.  (The route's
`waypoints` is always an array here, hence truthy.) -/
def waypointsStringOf (waypoints : List Marker) (optimizeWaypoints : Bool) :
    String :=
  let ws := String.intercalate "|" (waypoints.map waypointEntryString)
  if optimizeWaypoints then "optimize:true|" ++ jsArrayString waypoints
  else ws

/-! ## The effect entry guard (source lines 53-63) -/

/-- The `useEffect` guard: `origin.latitude && origin.longitude &&
destination.latitude && destination.longitude && apikey`.  A string is
truthy when non-empty. -/
def shouldFetch (origin destination : Marker) (apikey : String) : Bool :=
  qTruthy origin.latitude && qTruthy origin.longitude &&
    qTruthy destination.latitude && qTruthy destination.longitude &&
    apikey ≠ ""

/-- The effect body runs only behind the guard; with the guard false the
run is skipped entirely and the idle state persists. -/
def effectOutcome {α : Type} (origin destination : Marker) (apikey : String)
    (run idle : α) : α :=
  if shouldFetch origin destination apikey then run else idle

/-! ## Response handling in `fetchRoute` (source lines 255-324) -/

/-- One route of the provider response, with the fields the source
reads. -/
structure RouteJson where
  legs : List LegJson
  overview_polyline : Polyline
  fare : Option String
  waypoint_order : List Nat
deriving Repr, DecidableEq

instance : Inhabited RouteJson := ⟨⟨[], ⟨[]⟩, none, []⟩⟩

/-- The parsed provider response body: `status`, `error_message`,
`routes`.  Absent fields are `none`. -/
structure DirectionsJson where
  status : Option String
  error_message : Option String
  routes : List RouteJson
deriving Repr, DecidableEq

/-- JS truthiness of a possibly-absent string: absent and `""` are
falsy. -/
def strTruthy : Option String → Bool
  | none => false
  | some s => s ≠ ""

/-- JS `a || b` over possibly-absent strings. -/
def jsStrOr (a b : Option String) : Option String :=
  if strTruthy a then a else b

/-- The template `` `${err}` ``: `undefined` prints as "undefined". -/
def jsTemplateStr : Option String → String
  | none => "undefined"
  | some s => s

/-- The metrics the source computes for a route (lines 269-291 for the
alternatives offered to `filterRoute`, lines 296-316 for the resolved
route — the same formulas): distance summed over legs divided by 1000,
duration (traffic value when present) divided by 60, coordinates from
the overview polyline at low precision and from every leg's steps
otherwise, fare / waypoint order / legs copied verbatim. -/
def routeMetrics (precision : String) (route : RouteJson) : SegResult :=
  { distance :=
      (route.legs.foldl (fun carry curr => carry + curr.distance_value) 0) / 1000,
    duration :=
      (route.legs.foldl (fun carry curr =>
        carry + (match curr.duration_in_traffic with
                 | some v => v
                 | none => curr.duration_value)) 0) / 60,
    coordinates :=
      if precision = "low" then decode [⟨route.overview_polyline⟩]
      else route.legs.foldl (fun carry curr => carry ++ decode curr.steps) [],
    fare := route.fare,
    waypointOrder := route.waypoint_order,
    legs := route.legs }

/-- The `.then(json => ...)` handler (source lines 257-321).  A non-`OK`
status rejects with `error_message || status || 'Unknown error'`; an
empty `routes` array rejects with no reason (`undefined`); otherwise the
first route — or the one picked by `filterRoute` over the metrics of
every alternative — is measured and resolved.  (An out-of-range index
returned by `filterRoute` is the caller's precondition violation and is
modelled by the default route.) -/
def processResponse (filterRoute : Option (List SegResult → Nat))
    (precision : String) (json : DirectionsJson) :
    Except (Option String) SegResult :=
  if json.status ≠ some "OK" then
    .error (jsStrOr json.error_message (jsStrOr json.status (some "Unknown error")))
  else if json.routes.length ≠ 0 then
    let route :=
      match filterRoute with
      | none => json.routes.getD 0 default
      | some f =>
          let alternatives := json.routes.map (routeMetrics precision)
          json.routes.getD (f alternatives) default
    .ok (routeMetrics precision route)
  else .error none

/-- `fetchRoute`'s settled outcome given the parsed body: the trailing
`.catch` (source lines 322-324) wraps every rejection — including the
status rejection thrown inside the `.then` — into
`` `Error on GMAPS route request: ${err}` ``. -/
def fetchRouteResult (filterRoute : Option (List SegResult → Nat))
    (precision : String) (json : DirectionsJson) : Except String SegResult :=
  match processResponse filterRoute precision json with
  | .ok r => .ok r
  | .error e => .error ("Error on GMAPS route request: " ++ jsTemplateStr e)

/-- Chunks of `WAYPOINT_LIMIT` consecutive elements (last possibly
shorter): the closed form of the grouping reduce, used to reason about
it. -/
def chunksOf (l : List Marker) : List (List Marker) :=
  if h : l = [] then []
  else l.take WAYPOINT_LIMIT :: chunksOf (l.drop WAYPOINT_LIMIT)
termination_by l.length
decreasing_by
  have : l.length ≠ 0 := fun hz => h (List.length_eq_zero.mp hz)
  simp only [List.length_drop, WAYPOINT_LIMIT]
  omega

/-- A twelve-waypoint test vector (exceeding `WAYPOINT_LIMIT`). -/
def wsTwelve : List Marker :=
  [⟨1, 1⟩, ⟨2, 2⟩, ⟨3, 3⟩, ⟨4, 4⟩, ⟨5, 5⟩, ⟨6, 6⟩,
   ⟨7, 7⟩, ⟨8, 8⟩, ⟨9, 9⟩, ⟨10, 10⟩, ⟨11, 11⟩, ⟨12, 12⟩]

/-- The reference test vector of spec §8 (the classic documented
example, the string `_p~iF~ps|U_ulLnnqC_mqNvxq\x60@`), as UTF-16 code
units. -/
def referencePolyline : List Nat :=
  [95, 112, 126, 105, 70, 126, 112, 115, 124, 85, 95, 117, 108, 76,
   110, 110, 113, 67, 95, 109, 113, 78, 118, 120, 113, 96, 64]

/-! ## Supporting lemmas -/

theorem parseChunks_index_lt (s : List Nat) (index shift : Nat) (result : Int) :
    index < (parseChunks s index shift result).2 := by
  have key : ∀ n index shift result, s.length - index ≤ n →
      index < (parseChunks s index shift result).2 := by
    intro n
    induction n with
    | zero =>
        intro index shift result hle
        rw [parseChunks, List.getElem?_eq_none (by omega)]
        simp
    | succ n ih =>
        intro index shift result hle
        rw [parseChunks]
        split
        · next c hc =>
            have hlt : index < s.length := by
              by_contra hcon
              rw [List.getElem?_eq_none (by omega)] at hc
              exact Option.noConfusion hc
            dsimp only
            split
            · have := ih (index + 1) (shift + 5)
                (jsOr result (jsShl (jsAnd ((c : Int) - 63) 31) shift)) (by omega)
              omega
            · simp
        · simp
  exact key s.length index shift result (by omega)

theorem aggregate_foldl (results : List SegResult) (acc : AggResult) :
    results.foldl aggregateStep acc =
      { coordinates := acc.coordinates ++ (results.map SegResult.coordinates).flatten,
        distance := acc.distance + (results.map SegResult.distance).sum,
        duration := acc.duration + (results.map SegResult.duration).sum,
        fares := acc.fares ++ results.map SegResult.fare,
        legs := (results.map SegResult.legs).getLastD acc.legs,
        waypointOrder := acc.waypointOrder ++ results.map SegResult.waypointOrder } := by
  induction results generalizing acc with
  | nil => cases acc; simp
  | cons r rs ih =>
      rw [List.foldl_cons, ih]
      simp only [aggregateStep, List.map_cons, List.flatten_cons, List.sum_cons,
        List.getLastD_cons, List.append_assoc, List.singleton_append, add_assoc]

theorem firstFailure_isSome (outcomes : List (Except String SegResult))
    (h : ∃ e, Except.error e ∈ outcomes) : ∃ e, firstFailure outcomes = some e := by
  induction outcomes with
  | nil => obtain ⟨e, he⟩ := h; cases he
  | cons o rest ih =>
      cases o with
      | error e' => exact ⟨e', by simp [firstFailure]⟩
      | ok r =>
          obtain ⟨e, he⟩ := h
          have hmem : Except.error e ∈ rest := by
            rcases List.mem_cons.mp he with h1 | h1
            · exact absurd h1 (by simp)
            · exact h1
          obtain ⟨e2, he2⟩ := ih ⟨e, hmem⟩
          exact ⟨e2, by simpa [firstFailure] using he2⟩

theorem collectAll_error (outcomes : List (Except String SegResult)) (e : String)
    (h : firstFailure outcomes = some e) : collectAll outcomes = .error e := by
  induction outcomes with
  | nil => simp [firstFailure] at h
  | cons o rest ih =>
      cases o with
      | error e' =>
          have : e' = e := by simpa [firstFailure] using h
          subst this
          rfl
      | ok r =>
          have h' : firstFailure rest = some e := by simpa [firstFailure] using h
          simp [collectAll, ih h', Except.map]

/-! ## Claims C4, C7, C5 -/

/-- C4: aggregating an ordered sequence of segment results concatenates
the per-segment paths in segment order, sums the distances and the
durations, and appends exactly one fare entry and one waypoint-order
entry per segment, in segment order. -/
theorem aggregate_combines_segments (results : List SegResult) :
    (aggregate results).coordinates = (results.map SegResult.coordinates).flatten ∧
    (aggregate results).distance = (results.map SegResult.distance).sum ∧
    (aggregate results).duration = (results.map SegResult.duration).sum ∧
    (aggregate results).fares = results.map SegResult.fare ∧
    (aggregate results).waypointOrder = results.map SegResult.waypointOrder := by
  unfold aggregate
  rw [aggregate_foldl]
  simp [emptyAgg]

/-- C7: the aggregation fold copies `legs` from the last segment folded
(last-write-wins), rather than concatenating legs across segments. -/
theorem aggregate_legs_last_write_wins (results : List SegResult)
    (h : results ≠ []) :
    (aggregate results).legs = (results.getLast h).legs := by
  unfold aggregate
  rw [aggregate_foldl]
  simp only [emptyAgg]
  rw [List.getLastD_eq_getLast?, List.getLast?_map,
    List.getLast?_eq_getLast results h]
  rfl

/-- Witness for C7 at two concrete segment results with distinct legs:
the composite's legs are the second segment's legs alone. -/
theorem aggregate_legs_last_write_wins_witness :
    (aggregate [⟨1, 2, [], none, [], []⟩,
      ⟨3, 4, [], none, [⟨7, 8, none, []⟩], []⟩]).legs = [⟨7, 8, none, []⟩] := by
  rw [aggregate_legs_last_write_wins _ (by simp)]
  rfl

/-- C5: when any segment fetch fails, no ready call is made, no
aggregate is produced, the rendered path state is cleared, and the error
observer is invoked exactly once with the first observed failure. -/
theorem orchestration_failure_all_or_nothing
    (outcomes : List (Except String SegResult))
    (h : ∃ e, Except.error e ∈ outcomes) :
    (promiseAllJoin outcomes).readyCalls = [] ∧
    (promiseAllJoin outcomes).coordinates = none ∧
    ∃ e, firstFailure outcomes = some e ∧
      (promiseAllJoin outcomes).errorCalls = [e] := by
  obtain ⟨e', hf⟩ := firstFailure_isSome outcomes h
  unfold promiseAllJoin
  rw [collectAll_error outcomes e' hf]
  exact ⟨rfl, rfl, e', hf, rfl⟩

/-- Witness for C5: segment 2 of 3 fails; no ready call, path cleared,
and the lone reported failure is that segment's message. -/
theorem orchestration_failure_all_or_nothing_witness :
    (promiseAllJoin [Except.ok ⟨0, 0, [], none, [], []⟩,
      Except.error "segment two failed",
      Except.ok ⟨0, 0, [], none, [], []⟩]).readyCalls = [] ∧
    (promiseAllJoin [Except.ok ⟨0, 0, [], none, [], []⟩,
      Except.error "segment two failed",
      Except.ok ⟨0, 0, [], none, [], []⟩]).coordinates = none ∧
    (promiseAllJoin [Except.ok ⟨0, 0, [], none, [], []⟩,
      Except.error "segment two failed",
      Except.ok ⟨0, 0, [], none, [], []⟩]).errorCalls
        = ["segment two failed"] := by
  obtain ⟨h1, h2, e, he, h3⟩ := orchestration_failure_all_or_nothing
    [Except.ok ⟨0, 0, [], none, [], []⟩, Except.error "segment two failed",
      Except.ok ⟨0, 0, [], none, [], []⟩]
    ⟨"segment two failed", by simp⟩
  refine ⟨h1, h2, ?_⟩
  have heval : firstFailure [Except.ok ⟨0, 0, [], none, [], []⟩,
      Except.error "segment two failed",
      Except.ok ⟨0, 0, [], none, [], []⟩] = some "segment two failed" := rfl
  rw [heval] at he
  rw [(Option.some.inj he).symm] at h3
  exact h3

/-! ## Claims C8, C10, C6 -/

/-- C8: a non-`OK` status fails carrying `error_message`, else the
status string, else the `Unknown error` fallback, in that priority order
(wrapped by the closing `.catch`); an `OK` status with zero routes also
fails, producing no result. -/
theorem fetchRoute_error_priority (filterRoute : Option (List SegResult → Nat))
    (precision : String) (json : DirectionsJson) :
    (json.status ≠ some "OK" →
      fetchRouteResult filterRoute precision json =
        .error ("Error on GMAPS route request: " ++
          (if strTruthy json.error_message then jsTemplateStr json.error_message
           else if strTruthy json.status then jsTemplateStr json.status
           else "Unknown error"))) ∧
    (json.status = some "OK" → json.routes = [] →
      fetchRouteResult filterRoute precision json =
        .error "Error on GMAPS route request: undefined") := by
  constructor
  · intro hst
    unfold fetchRouteResult processResponse jsStrOr
    rw [if_pos hst]
    by_cases hem : strTruthy json.error_message
    · rw [if_pos hem, if_pos hem]
    · rw [if_neg hem, if_neg hem]
      by_cases hs2 : strTruthy json.status
      · rw [if_pos hs2, if_pos hs2]
      · rw [if_neg hs2, if_neg hs2]
        rfl
  · intro h1 h2
    unfold fetchRouteResult processResponse
    rw [if_neg (by simp [h1]), if_neg (by simp [h2])]
    rfl

/-- Witness for C8: a failed status uses `error_message` first; an `OK`
status with an empty routes array still rejects. -/
theorem fetchRoute_error_priority_witness :
    fetchRouteResult none "low" ⟨some "ZERO_RESULTS", some "boom", []⟩ =
      .error "Error on GMAPS route request: boom" ∧
    fetchRouteResult none "low" ⟨some "OK", none, []⟩ =
      .error "Error on GMAPS route request: undefined" := by
  constructor
  · have h := (fetchRoute_error_priority none "low"
      ⟨some "ZERO_RESULTS", some "boom", []⟩).1 (by decide)
    simpa using h
  · exact (fetchRoute_error_priority none "low" ⟨some "OK", none, []⟩).2 rfl rfl

/-- C10: a present-but-zero latitude or longitude fails the truthiness
entry guard — no fetch is performed and no observer invoked — and a
waypoint with a zero coordinate is serialized as the raw object rather
than a `"lat,lng"` string. -/
theorem zero_coordinate_guard {α : Type} (origin destination : Marker)
    (apikey : String) (run idle : α) (w : Marker)
    (h : origin.latitude = 0 ∨ origin.longitude = 0 ∨
      destination.latitude = 0 ∨ destination.longitude = 0)
    (hw : w.latitude = 0 ∨ w.longitude = 0) :
    shouldFetch origin destination apikey = false ∧
    effectOutcome origin destination apikey run idle = idle ∧
    waypointEntryString w = jsObjectString := by
  have hsf : shouldFetch origin destination apikey = false := by
    unfold shouldFetch qTruthy
    rcases h with h | h | h | h <;> simp [h]
  refine ⟨hsf, ?_, ?_⟩
  · unfold effectOutcome
    simp [hsf]
  · unfold waypointEntryString qTruthy
    rcases hw with hw | hw <;> simp [hw]

/-- Witness for C10 at an origin with latitude `0`, a complete
destination and key, and a waypoint with longitude `0`. -/
theorem zero_coordinate_guard_witness :
    shouldFetch ⟨0, 5⟩ ⟨1, 2⟩ "key" = false ∧
    effectOutcome ⟨0, 5⟩ ⟨1, 2⟩ "key" (1 : Nat) 0 = 0 ∧
    waypointEntryString ⟨3, 0⟩ = jsObjectString :=
  zero_coordinate_guard ⟨0, 5⟩ ⟨1, 2⟩ "key" 1 0 ⟨3, 0⟩ (Or.inl rfl) (Or.inr rfl)

/-- C6 (code bug): with optimization requested the source rebuilds the
waypoint parameter from the raw waypoint array (`${waypoints}`), so the
parameter is `optimize:true|[object Object]` rather than the prefixed
joined `"lat,lng"` strings the claim describes; without optimization the
joined form is produced exactly as claimed. -/
theorem optimize_waypoints_string_bug :
    waypointsStringOf [⟨1, 2⟩] true = "optimize:true|[object Object]" ∧
    waypointsStringOf [⟨1, 2⟩] false = "1,2" ∧
    waypointsStringOf [⟨1, 2⟩] true ≠
      "optimize:true|" ++
        String.intercalate "|" (List.map waypointEntryString [⟨1, 2⟩]) := by
  refine ⟨by decide, by decide, by decide⟩

/-! ## Chunker lemmas -/

theorem chunksOf_nil : chunksOf [] = [] := by
  rw [chunksOf]
  simp

theorem chunksOf_short (l : List Marker) (h1 : l ≠ [])
    (h2 : l.length ≤ WAYPOINT_LIMIT) : chunksOf l = [l] := by
  rw [chunksOf, dif_neg h1, List.take_all_of_le h2,
    List.drop_of_length_le h2, chunksOf_nil]

theorem setChunk_cons_succ (c : List Marker) (cs : List (List Marker))
    (m : Nat) (w : Marker) :
    setChunk (c :: cs) (m + 1) w = c :: setChunk cs m w := by
  unfold setChunk
  by_cases h : m < cs.length
  · rw [if_pos (by simpa using Nat.succ_lt_succ h), if_pos h]
    simp
  · rw [if_neg (by simpa using fun hc => h (Nat.lt_of_succ_lt_succ hc)), if_neg h]
    simp [Nat.succ_sub_succ]

theorem chunksOf_snoc (xs : List Marker) (w : Marker) :
    chunksOf (xs ++ [w]) = setChunk (chunksOf xs) (xs.length / WAYPOINT_LIMIT) w := by
  have key : ∀ n (xs : List Marker), xs.length = n →
      chunksOf (xs ++ [w]) = setChunk (chunksOf xs) (xs.length / WAYPOINT_LIMIT) w := by
    intro n
    induction n using Nat.strong_induction_on with
    | _ n ih =>
        intro xs hlen
        by_cases hsmall : xs.length < WAYPOINT_LIMIT
        · have hdivz : xs.length / WAYPOINT_LIMIT = 0 := Nat.div_eq_of_lt hsmall
          rw [hdivz]
          rw [chunksOf_short (xs ++ [w]) (by simp)
            (by simp only [List.length_append, List.length_cons,
              List.length_nil, WAYPOINT_LIMIT] at *; omega)]
          cases hxs : xs with
          | nil =>
              subst hxs
              rw [chunksOf_nil]
              simp [setChunk]
          | cons a as =>
              subst hxs
              rw [chunksOf_short (a :: as) (by simp) (le_of_lt hsmall)]
              simp [setChunk]
        · push_neg at hsmall
          rw [chunksOf, dif_neg (by simp)]
          rw [List.take_append_of_le_length hsmall,
            List.drop_append_of_le_length hsmall]
          have hlt : (xs.drop WAYPOINT_LIMIT).length < n := by
            simp only [List.length_drop]
            simp only [WAYPOINT_LIMIT] at *
            omega
          rw [ih _ hlt (xs.drop WAYPOINT_LIMIT) rfl]
          have hxs : xs ≠ [] := by
            intro hc
            rw [hc] at hsmall
            simp only [WAYPOINT_LIMIT] at hsmall
            simp at hsmall
          conv_rhs => rw [chunksOf, dif_neg hxs]
          have hdiv : xs.length / WAYPOINT_LIMIT
              = (xs.drop WAYPOINT_LIMIT).length / WAYPOINT_LIMIT + 1 := by
            simp only [List.length_drop]
            simp only [WAYPOINT_LIMIT] at *
            omega
          rw [hdiv, setChunk_cons_succ]
  exact key xs.length xs rfl

theorem chunckedWaypoints_eq (ws : List Marker) :
    chunckedWaypoints ws = chunksOf ws := by
  induction ws using List.reverseRecOn with
  | nil => rw [chunksOf_nil]; rfl
  | append_singleton xs w ih =>
      unfold chunckedWaypoints
      rw [List.enum_append, List.foldl_append]
      have henum : List.enumFrom xs.length [w] = [(xs.length, w)] := rfl
      rw [henum, List.foldl_cons, List.foldl_nil]
      unfold chunckedWaypoints at ih
      rw [ih, chunksOf_snoc]

theorem chunksOf_length (l : List Marker) :
    (chunksOf l).length = (l.length + WAYPOINT_LIMIT - 1) / WAYPOINT_LIMIT := by
  have key : ∀ n (l : List Marker), l.length = n →
      (chunksOf l).length = (l.length + WAYPOINT_LIMIT - 1) / WAYPOINT_LIMIT := by
    intro n
    induction n using Nat.strong_induction_on with
    | _ n ih =>
        intro l hlen
        by_cases hl : l = []
        · subst hl
          rw [chunksOf_nil]
          simp [WAYPOINT_LIMIT]
        · rw [chunksOf, dif_neg hl]
          have hnz : l.length ≠ 0 := fun hz => hl (List.length_eq_zero.mp hz)
          have hlt : (l.drop WAYPOINT_LIMIT).length < n := by
            simp only [List.length_drop]
            simp only [WAYPOINT_LIMIT] at *
            omega
          rw [List.length_cons, ih _ hlt (l.drop WAYPOINT_LIMIT) rfl]
          simp only [List.length_drop]
          simp only [WAYPOINT_LIMIT] at *
          omega
  exact key l.length l rfl

theorem chunksOf_flatten (l : List Marker) : (chunksOf l).flatten = l := by
  have key : ∀ n (l : List Marker), l.length = n → (chunksOf l).flatten = l := by
    intro n
    induction n using Nat.strong_induction_on with
    | _ n ih =>
        intro l hlen
        by_cases hl : l = []
        · subst hl
          rw [chunksOf_nil]
          rfl
        · rw [chunksOf, dif_neg hl]
          have hnz : l.length ≠ 0 := fun hz => hl (List.length_eq_zero.mp hz)
          have hlt : (l.drop WAYPOINT_LIMIT).length < n := by
            simp only [List.length_drop]
            simp only [WAYPOINT_LIMIT] at *
            omega
          rw [List.flatten_cons, ih _ hlt (l.drop WAYPOINT_LIMIT) rfl,
            List.take_append_drop]
  exact key l.length l rfl

theorem chunksOf_getD (l : List Marker) (i : Nat) :
    (chunksOf l).getD i []
      = (l.drop (WAYPOINT_LIMIT * i)).take WAYPOINT_LIMIT := by
  have key : ∀ n (l : List Marker), l.length = n → ∀ i,
      (chunksOf l).getD i []
        = (l.drop (WAYPOINT_LIMIT * i)).take WAYPOINT_LIMIT := by
    intro n
    induction n using Nat.strong_induction_on with
    | _ n ih =>
        intro l hlen i
        by_cases hl : l = []
        · subst hl
          rw [chunksOf_nil]
          simp
        · rw [chunksOf, dif_neg hl]
          cases i with
          | zero => simp
          | succ j =>
              have hnz : l.length ≠ 0 := fun hz => hl (List.length_eq_zero.mp hz)
              have hlt : (l.drop WAYPOINT_LIMIT).length < n := by
                simp only [List.length_drop]
                simp only [WAYPOINT_LIMIT] at *
                omega
              rw [List.getD_cons_succ, ih _ hlt (l.drop WAYPOINT_LIMIT) rfl j,
                List.drop_drop]
              have hmul : WAYPOINT_LIMIT + WAYPOINT_LIMIT * j
                  = WAYPOINT_LIMIT * (j + 1) := by ring
              rw [hmul]
  exact key l.length l rfl i

theorem map_getD_range (cs : List (List Marker)) :
    (List.range cs.length).map (fun i => cs.getD i []) = cs := by
  apply List.ext_getElem
  · simp
  · intro i h1 h2
    simp only [List.getElem_map, List.getElem_range,
      List.getD_eq_getElem?_getD]
    rw [List.getElem?_eq_getElem h2]
    rfl

/-! ## Claims C1, C2 -/

/-- C1: with splitting enabled and more than `WAYPOINT_LIMIT` waypoints
the chunker produces exactly `⌈n / L⌉` segments whose waypoint groups
are the consecutive length-`L` slices of the input (last possibly
shorter) and whose concatenation is the original list; otherwise exactly
one segment carries all waypoints with the original endpoints. -/
theorem chunker_coverage (o d : Marker) (ws : List Marker) (split : Bool) :
    (split = true → ws.length > WAYPOINT_LIMIT →
      ((makeRoutes o d (some ws) split).length
          = (ws.length + WAYPOINT_LIMIT - 1) / WAYPOINT_LIMIT ∧
        ((makeRoutes o d (some ws) split).map Route.waypoints).flatten = ws ∧
        ∀ i, ((makeRoutes o d (some ws) split).map Route.waypoints).getD i []
            = (ws.drop (WAYPOINT_LIMIT * i)).take WAYPOINT_LIMIT)) ∧
    ((split = false ∨ ws.length ≤ WAYPOINT_LIMIT) →
      makeRoutes o d (some ws) split
        = [{ waypoints := ws, origin := o, destination := d }]) := by
  constructor
  · intro hsplit hlen
    subst hsplit
    have hmap : (makeRoutes o d (some ws) true).map Route.waypoints
        = chunksOf ws := by
      unfold makeRoutes
      dsimp only
      rw [if_pos (⟨rfl, hlen⟩ : (true = true) ∧ ws.length > WAYPOINT_LIMIT)]
      rw [List.map_map]
      have : (Route.waypoints ∘ fun i =>
          ({ waypoints := (chunckedWaypoints ws).getD i [],
             origin := if i = 0 then o
                       else ((chunckedWaypoints ws).getD (i - 1) []).getLastD default,
             destination := if i = (chunckedWaypoints ws).length - 1 then d
                            else ((chunckedWaypoints ws).getD (i + 1) []).headD
                              default } : Route))
          = fun i => (chunckedWaypoints ws).getD i [] := rfl
      rw [this, chunckedWaypoints_eq, map_getD_range]
    refine ⟨?_, ?_, ?_⟩
    · have : (makeRoutes o d (some ws) true).length
          = ((makeRoutes o d (some ws) true).map Route.waypoints).length := by
        simp
      rw [this, hmap, chunksOf_length]
    · rw [hmap, chunksOf_flatten]
    · intro i
      rw [hmap, chunksOf_getD]
  · intro hother
    unfold makeRoutes
    dsimp only
    rcases hother with hs | hl
    · subst hs
      rw [if_neg (by simp)]
    · rw [if_neg (by intro hc; omega)]

/-- C2: in the split case the first segment starts at the original
origin, the last segment ends at the original destination, and every
middle segment runs from the last waypoint of the previous group to the
first waypoint of the next group (groups being the consecutive
`WAYPOINT_LIMIT`-sized slices of the input). -/
theorem chunker_boundaries (o d : Marker) (ws : List Marker)
    (hlen : ws.length > WAYPOINT_LIMIT) :
    ∀ i (h : i < (makeRoutes o d (some ws) true).length),
      ((makeRoutes o d (some ws) true).get ⟨i, h⟩).origin
          = (if i = 0 then o
             else ((ws.drop (WAYPOINT_LIMIT * (i - 1))).take
                WAYPOINT_LIMIT).getLastD default) ∧
      ((makeRoutes o d (some ws) true).get ⟨i, h⟩).destination
          = (if i = (makeRoutes o d (some ws) true).length - 1 then d
             else ((ws.drop (WAYPOINT_LIMIT * (i + 1))).take
                WAYPOINT_LIMIT).headD default) := by
  intro i h
  have hunfold : makeRoutes o d (some ws) true
      = (List.range (chunckedWaypoints ws).length).map (fun i =>
          ({ waypoints := (chunckedWaypoints ws).getD i [],
             origin := if i = 0 then o
                       else ((chunckedWaypoints ws).getD (i - 1) []).getLastD
                         default,
             destination := if i = (chunckedWaypoints ws).length - 1 then d
                            else ((chunckedWaypoints ws).getD (i + 1) []).headD
                              default } : Route)) := by
    unfold makeRoutes
    dsimp only
    rw [if_pos (⟨rfl, hlen⟩ : (true = true) ∧ ws.length > WAYPOINT_LIMIT)]
  have hget : (makeRoutes o d (some ws) true).get ⟨i, h⟩
      = ({ waypoints := (chunckedWaypoints ws).getD i [],
           origin := if i = 0 then o
                     else ((chunckedWaypoints ws).getD (i - 1) []).getLastD
                       default,
           destination := if i = (chunckedWaypoints ws).length - 1 then d
                          else ((chunckedWaypoints ws).getD (i + 1) []).headD
                            default } : Route) := by
    rw [List.get_eq_getElem, List.getElem_of_eq hunfold h]
    simp only [List.getElem_map, List.getElem_range]
  have hcount : (makeRoutes o d (some ws) true).length
      = (chunckedWaypoints ws).length := by
    rw [hunfold]
    simp
  rw [hget, hcount]
  dsimp only
  constructor
  · by_cases hi : i = 0
    · rw [if_pos hi, if_pos hi]
    · rw [if_neg hi, if_neg hi]
      rw [chunckedWaypoints_eq, chunksOf_getD]
  · by_cases hi : i = (chunckedWaypoints ws).length - 1
    · rw [if_pos hi, if_pos hi]
    · rw [if_neg hi, if_neg hi]
      rw [chunckedWaypoints_eq, chunksOf_getD]

/-- Witness for C1 at twelve waypoints: two segments in the split case
whose groups are the two slices and rebuild the input; one unsplit
segment otherwise. -/
theorem chunker_coverage_witness :
    (makeRoutes ⟨100, 100⟩ ⟨200, 200⟩ (some wsTwelve) true).length = 2 ∧
    ((makeRoutes ⟨100, 100⟩ ⟨200, 200⟩ (some wsTwelve) true).map
        Route.waypoints).flatten = wsTwelve ∧
    ((makeRoutes ⟨100, 100⟩ ⟨200, 200⟩ (some wsTwelve) true).map
        Route.waypoints).getD 1 [] = (wsTwelve.drop 10).take 10 ∧
    makeRoutes ⟨100, 100⟩ ⟨200, 200⟩ (some wsTwelve) false
      = [{ waypoints := wsTwelve, origin := ⟨100, 100⟩,
           destination := ⟨200, 200⟩ }] := by
  obtain ⟨h1, h2, h3⟩ :=
    (chunker_coverage ⟨100, 100⟩ ⟨200, 200⟩ wsTwelve true).1 rfl (by decide)
  refine ⟨?_, h2, ?_, ?_⟩
  · rw [h1]
    decide
  · have := h3 1
    simpa [WAYPOINT_LIMIT] using this
  · exact (chunker_coverage ⟨100, 100⟩ ⟨200, 200⟩ wsTwelve false).2 (Or.inl rfl)

/-- Witness for C2 at twelve waypoints: segment 0 starts at the original
origin and ends at the first waypoint of group 1; segment 1 starts at
the last waypoint of group 0 and ends at the original destination. -/
theorem chunker_boundaries_witness :
    ((makeRoutes ⟨100, 100⟩ ⟨200, 200⟩ (some wsTwelve) true).get
        ⟨0, by decide⟩).origin = ⟨100, 100⟩ ∧
    ((makeRoutes ⟨100, 100⟩ ⟨200, 200⟩ (some wsTwelve) true).get
        ⟨0, by decide⟩).destination = ⟨11, 11⟩ ∧
    ((makeRoutes ⟨100, 100⟩ ⟨200, 200⟩ (some wsTwelve) true).get
        ⟨1, by decide⟩).origin = ⟨10, 10⟩ ∧
    ((makeRoutes ⟨100, 100⟩ ⟨200, 200⟩ (some wsTwelve) true).get
        ⟨1, by decide⟩).destination = ⟨200, 200⟩ := by
  obtain ⟨h01, h02⟩ := chunker_boundaries ⟨100, 100⟩ ⟨200, 200⟩ wsTwelve
    (by decide) 0 (by decide)
  obtain ⟨h11, h12⟩ := chunker_boundaries ⟨100, 100⟩ ⟨200, 200⟩ wsTwelve
    (by decide) 1 (by decide)
  refine ⟨by simpa using h01, ?_, ?_, ?_⟩
  · rw [h02]
    decide
  · rw [h11]
    decide
  · rw [h12]
    decide

/-! ## JavaScript arithmetic on small naturals -/

theorem toUInt32n_ofNat (n : Nat) (h : n < 2 ^ 32) : toUInt32n (n : Int) = n := by
  unfold toUInt32n
  rw [Int.emod_eq_of_lt (by positivity) (by exact_mod_cast h)]
  exact Int.toNat_ofNat n

theorem ofInt32_small (n : Nat) (h : n < 2 ^ 31) : ofInt32 n = (n : Int) := by
  unfold ofInt32
  rw [if_pos h]

theorem toInt32_ofNat (n : Nat) (h : n < 2 ^ 31) : toInt32 (n : Int) = (n : Int) := by
  unfold toInt32
  rw [toUInt32n_ofNat n (by omega), ofInt32_small n h]

theorem jsAnd31_ofNat (m : Nat) (hm : m < 2 ^ 32) :
    jsAnd (m : Int) 31 = ((m % 32 : Nat) : Int) := by
  unfold jsAnd
  rw [toUInt32n_ofNat m hm]
  have h31 : toUInt32n 31 = 31 := by decide
  rw [h31]
  have : Nat.land m 31 = m % 32 := by
    have := Nat.and_pow_two_sub_one_eq_mod m 5
    simpa using this
  rw [this, ofInt32_small _ (by have := Nat.mod_lt m (show 0 < 32 by norm_num); omega)]

theorem jsAnd1_ofNat (m : Nat) (hm : m < 2 ^ 32) :
    jsAnd (m : Int) 1 = ((m % 2 : Nat) : Int) := by
  unfold jsAnd
  rw [toUInt32n_ofNat m hm]
  have h1 : toUInt32n 1 = 1 := by decide
  rw [h1]
  have hland : Nat.land m 1 = m % 2 := Nat.and_one_is_mod m
  rw [hland, ofInt32_small _ (by have := Nat.mod_lt m (show 0 < 2 by norm_num); omega)]

theorem jsShl_ofNat (m s : Nat) (hs : s < 32) (h : m * 2 ^ s < 2 ^ 31) :
    jsShl (m : Int) s = ((m * 2 ^ s : Nat) : Int) := by
  unfold jsShl
  have hm : m < 2 ^ 32 := by
    have h1 : m ≤ m * 2 ^ s := Nat.le_mul_of_pos_right m (by positivity)
    omega
  rw [toUInt32n_ofNat m hm, Nat.mod_eq_of_lt hs, Nat.shiftLeft_eq,
    Nat.mod_eq_of_lt (by omega), ofInt32_small _ h]

theorem jsOr_ofNat_add (a b : Nat) (t : Nat) (ha : a < 2 ^ t)
    (hsum : a + b * 2 ^ t < 2 ^ 31) :
    jsOr (a : Int) ((b * 2 ^ t : Nat) : Int) = ((a + b * 2 ^ t : Nat) : Int) := by
  unfold jsOr
  have h31 : (2 : Nat) ^ 31 ≤ 2 ^ 32 := by norm_num
  rw [toUInt32n_ofNat a (by omega), toUInt32n_ofNat _ (by omega)]
  have hor : a + b * 2 ^ t = Nat.lor (a) (b * 2 ^ t) := by
    have := Nat.mul_add_lt_is_or ha b
    rw [Nat.mul_comm (2 ^ t) b] at this
    calc a + b * 2 ^ t = b * 2 ^ t + a := by omega
    _ = Nat.lor (b * 2 ^ t) a := this
    _ = Nat.lor a (b * 2 ^ t) := Nat.lor_comm _ _
  rw [← hor, ofInt32_small _ hsum]

theorem jsSar1_ofNat (v : Nat) (h : v < 2 ^ 31) :
    jsSar (v : Int) 1 = ((v / 2 : Nat) : Int) := by
  unfold jsSar
  rw [toInt32_ofNat v h]
  have h1 : (1 : Nat) % 32 = 1 := by norm_num
  rw [h1]
  rw [Int.fdiv_eq_div (by positivity) (by positivity)]
  have h2 : ((2 : Int) ^ 1) = 2 := by norm_num
  rw [h2]
  exact_mod_cast (Int.ofNat_div v 2).symm

theorem jsNot_ofNat (n : Nat) (h : n < 2 ^ 31) :
    jsNot (n : Int) = -(n : Int) - 1 := by
  unfold jsNot
  rw [toInt32_ofNat n h]

theorem jsZigzag_ofNat (v : Nat) (h : v < 2 ^ 31) :
    jsZigzag ((v : Nat) : Int) = specZigzag v := by
  unfold jsZigzag specZigzag
  rw [jsAnd1_ofNat v (by omega), jsSar1_ofNat v h]
  by_cases hpar : v % 2 = 1
  · rw [if_pos (by exact_mod_cast by omega), if_pos hpar,
      jsNot_ofNat _ (by omega)]
  · rw [if_neg (by simp; omega), if_neg hpar]

/-! ## Varint facts and the parse equivalence -/

theorem specVarint_facts : ∀ (cs : List Nat) v k r,
    specVarint cs = some (v, k, r) →
    1 ≤ k ∧ r = cs.drop k ∧ k ≤ cs.length := by
  intro cs
  induction cs with
  | nil => intro v k r h; exact Option.noConfusion h
  | cons c rest ih =>
      intro v k r h
      rw [specVarint] at h
      split at h
      · exact Option.noConfusion h
      · split at h
        · simp only [Option.some.injEq, Prod.mk.injEq] at h
          obtain ⟨-, hk, hr⟩ := h
          subst hk
          subst hr
          refine ⟨le_refl 1, rfl, by simp⟩
        · split at h
          · next v' k' r' heq =>
              simp only [Option.some.injEq, Prod.mk.injEq] at h
              obtain ⟨-, hk, hr⟩ := h
              subst hk
              subst hr
              obtain ⟨hk1, hr1, hk2⟩ := ih v' k' r' heq
              refine ⟨by omega, ?_, by simp; omega⟩
              rw [List.drop_succ_cons, hr1]
          · exact Option.noConfusion h

theorem parseChunks_of_specVarint :
    ∀ (cs : List Nat) (s : List Nat) index j R v k r,
      cs = s.drop index →
      specVarint cs = some (v, k, r) →
      j + k ≤ 6 →
      R < 2 ^ (5 * j) →
      R + v * 2 ^ (5 * j) < 2 ^ 31 →
      parseChunks s index (5 * j) ((R : Nat) : Int)
        = (((R + v * 2 ^ (5 * j) : Nat) : Int), index + k) := by
  intro cs
  induction cs with
  | nil =>
      intro s index j R v k r hdrop h
      exact absurd h (by simp [specVarint])
  | cons c rest ih =>
      intro s index j R v k r hdrop h hjk hR hsum
      have hcell : s[index]? = some c := by
        have h0 : (s.drop index)[0]? = some c := by rw [← hdrop]; simp
        rwa [List.getElem?_drop, Nat.add_zero] at h0
      have hrest : rest = s.drop (index + 1) := by
        have ht := List.tail_drop s index
        rw [← hdrop, List.tail_cons] at ht
        exact ht
      rw [specVarint] at h
      split at h
      · exact Option.noConfusion h
      · next hrange =>
          push_neg at hrange
          obtain ⟨hc63, hc126⟩ := hrange
          split at h
          · -- final chunk: c < 95, v = c - 63, k = 1
            next hsmall =>
              simp only [Option.some.injEq, Prod.mk.injEq] at h
              obtain ⟨hv, hk, hr⟩ := h
              subst hk
              rw [parseChunks, hcell]
              dsimp only
              have hb : (c : Int) - 63 = ((c - 63 : Nat) : Int) := by omega
              rw [if_neg (by omega)]
              rw [hb, jsAnd31_ofNat (c - 63) (by omega),
                Nat.mod_eq_of_lt (by omega)]
              have hj : 5 * j < 32 := by omega
              have hshl : (c - 63) * 2 ^ (5 * j) < 2 ^ 31 := by
                subst hv
                omega
              rw [jsShl_ofNat (c - 63) (5 * j) hj hshl,
                jsOr_ofNat_add R (c - 63) (5 * j) hR (by subst hv; omega)]
              subst hv
              rfl
          · next hbig =>
              push_neg at hbig
              split at h
              · -- continuation chunk: c ≥ 95
                next v' k' r' heq =>
                  simp only [Option.some.injEq, Prod.mk.injEq] at h
                  obtain ⟨hv, hk, hr⟩ := h
                  have hk' : 1 ≤ k' := (specVarint_facts rest v' k' r' heq).1
                  have hpow : (2 : Nat) ^ (5 * (j + 1)) = 2 ^ (5 * j) * 32 := by
                    have e1 : 5 * (j + 1) = 5 * j + 5 := by ring
                    rw [e1, pow_add]
                    norm_num
                  have hple : (2 : Nat) ^ (5 * j) ≤ 2 ^ 20 := by
                    apply Nat.pow_le_pow_right (by norm_num)
                    omega
                  have h2_20 : (2 : Nat) ^ 20 = 1048576 := by norm_num
                  have h2_31 : (2 : Nat) ^ 31 = 2147483648 := by norm_num
                  rw [parseChunks, hcell]
                  dsimp only
                  have hb : (c : Int) - 63 = ((c - 63 : Nat) : Int) := by omega
                  rw [if_pos (by omega)]
                  rw [hb, jsAnd31_ofNat (c - 63) (by omega)]
                  have hmod : (c - 63) % 32 = c - 95 := by omega
                  rw [hmod]
                  have hj : 5 * j < 32 := by omega
                  have hlow : c - 95 < 32 := by omega
                  have hshl : (c - 95) * 2 ^ (5 * j) < 2 ^ 31 := by
                    have : (c - 95) * 2 ^ (5 * j) < 32 * 2 ^ (5 * j) := by
                      apply Nat.mul_lt_mul_of_lt_of_le hlow (le_refl _)
                      positivity
                    omega
                  rw [jsShl_ofNat (c - 95) (5 * j) hj hshl]
                  have hsum' : R + (c - 95) * 2 ^ (5 * j) < 2 ^ 31 := by
                    have hvge : c - 95 ≤ v := by omega
                    have : (c - 95) * 2 ^ (5 * j) ≤ v * 2 ^ (5 * j) :=
                      Nat.mul_le_mul_right _ hvge
                    omega
                  rw [jsOr_ofNat_add R (c - 95) (5 * j) hR hsum']
                  have hR' : R + (c - 95) * 2 ^ (5 * j) < 2 ^ (5 * (j + 1)) := by
                    rw [hpow]
                    have : (c - 95) * 2 ^ (5 * j) ≤ 31 * 2 ^ (5 * j) :=
                      Nat.mul_le_mul_right _ (by omega)
                    have hPpos : 0 < (2 : Nat) ^ (5 * j) := by positivity
                    nlinarith
                  have hsum'' : (R + (c - 95) * 2 ^ (5 * j))
                      + v' * 2 ^ (5 * (j + 1)) < 2 ^ 31 := by
                    have hvv : R + (c - 95) * 2 ^ (5 * j) + v' * 2 ^ (5 * (j + 1))
                        = R + v * 2 ^ (5 * j) := by
                      rw [hpow, ← hv]
                      ring
                    rw [hvv]
                    exact hsum
                  have hstep := ih s (index + 1) (j + 1)
                    (R + (c - 95) * 2 ^ (5 * j)) v' k' r' hrest heq
                    (by omega) hR' hsum''
                  have e5 : 5 * j + 5 = 5 * (j + 1) := by ring
                  rw [e5, hstep]
                  have hvv : R + (c - 95) * 2 ^ (5 * j) + v' * 2 ^ (5 * (j + 1))
                      = R + v * 2 ^ (5 * j) := by
                    rw [hpow, ← hv]
                    ring
                  rw [hvv, ← hk]
                  congr 1
                  omega
              · exact Option.noConfusion h

theorem specDelta_inv (cs : List Nat) (d : Int) (r : List Nat)
    (h : specDelta cs = some (d, r)) :
    ∃ v k, specVarint cs = some (v, k, r) ∧ k ≤ 6 ∧ v < 2 ^ 31 ∧
      d = specZigzag v := by
  rw [specDelta] at h
  split at h
  · next v k r' heq =>
      split at h
      · next hb =>
          simp only [Option.some.injEq, Prod.mk.injEq] at h
          obtain ⟨hd, hr⟩ := h
          subst hr
          exact ⟨v, k, heq, hb.1, hb.2, hd.symm⟩
      · exact Option.noConfusion h
  · exact Option.noConfusion h

theorem specDelta_length (cs : List Nat) (d : Int) (r : List Nat)
    (h : specDelta cs = some (d, r)) : r.length < cs.length := by
  obtain ⟨v, k, hvar, -, -, -⟩ := specDelta_inv cs d r h
  obtain ⟨hk1, hr, hk2⟩ := specVarint_facts cs v k r hvar
  subst hr
  simp only [List.length_drop]
  omega

theorem specDecodePointsF_congr : ∀ (f1 f2 : Nat) (s : List Nat)
    (lat lng : Int), s.length ≤ f1 → s.length ≤ f2 →
    specDecodePointsF f1 s lat lng = specDecodePointsF f2 s lat lng := by
  intro f1
  induction f1 with
  | zero =>
      intro f2 s lat lng h1 h2
      have hs : s = [] := List.length_eq_zero.mp (by omega)
      subst hs
      cases f2 <;> rfl
  | succ g1 ih =>
      intro f2 s lat lng h1 h2
      cases s with
      | nil => cases f2 <;> rfl
      | cons c rest =>
          cases f2 with
          | zero => simp at h2
          | succ g2 =>
              simp only [specDecodePointsF]
              cases hd1 : specDelta (c :: rest) with
              | none => rfl
              | some p1 =>
                  obtain ⟨dlat, r1⟩ := p1
                  dsimp only
                  cases hd2 : specDelta r1 with
                  | none => rfl
                  | some p2 =>
                      obtain ⟨dlng, r2⟩ := p2
                      dsimp only
                      have hl1 : r1.length < (c :: rest).length :=
                        specDelta_length _ _ _ hd1
                      have hl2 : r2.length < r1.length :=
                        specDelta_length _ _ _ hd2
                      rw [ih g2 r2 (lat + dlat) (lng + dlng)
                        (by simp at hl1 h1 ⊢; omega)
                        (by simp at hl1 h2 ⊢; omega)]

theorem specDecodePoints_nil (lat lng : Int) :
    specDecodePoints [] lat lng = some [] := rfl

theorem specDecodePoints_cons (c : Nat) (rest : List Nat) (lat lng : Int) :
    specDecodePoints (c :: rest) lat lng =
      match specDelta (c :: rest) with
      | none => none
      | some (dlat, r1) =>
          match specDelta r1 with
          | none => none
          | some (dlng, r2) =>
              match specDecodePoints r2 (lat + dlat) (lng + dlng) with
              | none => none
              | some pts =>
                  some ({ latitude := ((lat + dlat : Int) : ℚ) / 100000,
                          longitude := ((lng + dlng : Int) : ℚ) / 100000 }
                    :: pts) := by
  unfold specDecodePoints
  simp only [List.length_cons, specDecodePointsF]
  cases hd1 : specDelta (c :: rest) with
  | none => rfl
  | some p1 =>
      obtain ⟨dlat, r1⟩ := p1
      dsimp only
      cases hd2 : specDelta r1 with
      | none => rfl
      | some p2 =>
          obtain ⟨dlng, r2⟩ := p2
          dsimp only
          have hl1 : r1.length < (c :: rest).length := specDelta_length _ _ _ hd1
          have hl2 : r2.length < r1.length := specDelta_length _ _ _ hd2
          rw [specDecodePointsF_congr rest.length r2.length r2
            (lat + dlat) (lng + dlng) (by simp at hl1 ⊢; omega) (le_refl _)]

theorem decodeLoop_of_spec (s : List Nat) :
    ∀ n index (lat lng : Int) pts, s.length - index ≤ n →
      specDecodePoints (s.drop index) lat lng = some pts →
      decodeLoop s index lat lng = pts := by
  intro n
  induction n with
  | zero =>
      intro index lat lng pts hn hspec
      have hdrop : s.drop index = [] := List.drop_eq_nil_of_le (by omega)
      rw [hdrop, specDecodePoints_nil] at hspec
      rw [decodeLoop, dif_neg (by omega)]
      exact Option.some.inj hspec
  | succ m ih =>
      intro index lat lng pts hn hspec
      cases hdrop : s.drop index with
      | nil =>
          rw [hdrop, specDecodePoints_nil] at hspec
          have hlen : s.length ≤ index := List.drop_eq_nil_iff.mp hdrop
          rw [decodeLoop, dif_neg (by omega)]
          exact Option.some.inj hspec
      | cons c rest =>
          have hidx : index < s.length := by
            by_contra hc
            rw [List.drop_eq_nil_of_le (by omega)] at hdrop
            exact List.noConfusion hdrop
          rw [hdrop, specDecodePoints_cons] at hspec
          cases hd1 : specDelta (c :: rest) with
          | none => rw [hd1] at hspec; exact Option.noConfusion hspec
          | some p1 =>
              obtain ⟨dlat, r1⟩ := p1
              rw [hd1] at hspec
              dsimp only at hspec
              cases hd2 : specDelta r1 with
              | none => rw [hd2] at hspec; exact Option.noConfusion hspec
              | some p2 =>
                  obtain ⟨dlng, r2⟩ := p2
                  rw [hd2] at hspec
                  dsimp only at hspec
                  cases hd3 : specDecodePoints r2 (lat + dlat) (lng + dlng) with
                  | none => rw [hd3] at hspec; exact Option.noConfusion hspec
                  | some pts' =>
                      rw [hd3] at hspec
                      dsimp only at hspec
                      obtain ⟨v1, k1, hvar1, hk1, hv1, hd1z⟩ :=
                        specDelta_inv _ _ _ hd1
                      obtain ⟨hk1pos, hr1, -⟩ := specVarint_facts _ _ _ _ hvar1
                      have hr1drop : r1 = s.drop (index + k1) := by
                        rw [hr1, ← hdrop, List.drop_drop]
                      obtain ⟨v2, k2, hvar2, hk2, hv2, hd2z⟩ :=
                        specDelta_inv _ _ _ hd2
                      obtain ⟨hk2pos, hr2, -⟩ := specVarint_facts _ _ _ _ hvar2
                      have hr2drop : r2 = s.drop (index + k1 + k2) := by
                        rw [hr2, hr1drop, List.drop_drop]
                      have hp1 := parseChunks_of_specVarint (c :: rest) s index
                        0 0 v1 k1 r1 hdrop.symm hvar1 (by omega) (by norm_num)
                        (by simpa using hv1)
                      have hp2 := parseChunks_of_specVarint r1 s (index + k1)
                        0 0 v2 k2 r2 hr1drop hvar2 (by omega) (by norm_num)
                        (by simpa using hv2)
                      norm_num at hp1 hp2
                      rw [decodeLoop, dif_pos hidx]
                      dsimp only
                      rw [hp1]
                      dsimp only
                      rw [hp2]
                      dsimp only
                      rw [jsZigzag_ofNat v1 hv1, jsZigzag_ofNat v2 hv2,
                        ← hd1z, ← hd2z]
                      rw [(Option.some.inj hspec).symm]
                      congr 1
                      exact ih (index + k1 + k2) (lat + dlat) (lng + dlng) pts'
                        (by omega) (by rw [← hr2drop]; exact hd3)

/-! ## Claims C3, C9 -/

/-- C3: on well-formed input (6-bit chunks, at most 6 chunks per delta,
accumulated integers below `2 ^ 31`) the source decoder reproduces the
classic variable-length delta/zigzag algorithm exactly, and multiple
records are decoded independently and concatenated in input order. -/
theorem decode_matches_classic_algorithm (t : List Step)
    (h : ∀ step ∈ t, WellFormedPolyline step.polyline.points) :
    decode t = t.flatMap
      (fun step => (specDecodePoints step.polyline.points 0 0).getD []) := by
  unfold decode
  induction t with
  | nil => rfl
  | cons st rest ih =>
      rw [List.flatMap_cons, List.flatMap_cons]
      rw [ih (fun s hs => h s (List.mem_cons_of_mem _ hs))]
      congr 1
      have hwf := h st (List.mem_cons_self _ _)
      unfold WellFormedPolyline at hwf
      obtain ⟨pts, hpts⟩ := Option.isSome_iff_exists.mp hwf
      rw [hpts]
      have hloop := decodeLoop_of_spec st.polyline.points
        st.polyline.points.length 0 0 0 pts (by omega)
        (by rw [List.drop_zero]; exact hpts)
      simpa using hloop

/-- Witness for C3 on the documented reference vector of spec §8,
yielding the classic three points. -/
theorem decode_matches_classic_algorithm_witness :
    decode [⟨⟨referencePolyline⟩⟩] =
      ([⟨⟨referencePolyline⟩⟩] : List Step).flatMap
        (fun step => (specDecodePoints step.polyline.points 0 0).getD []) ∧
    (specDecodePoints referencePolyline 0 0).getD []
      = [⟨77 / 2, -601 / 5⟩, ⟨407 / 10, -2419 / 20⟩,
         ⟨10813 / 250, -126453 / 1000⟩] := by
  constructor
  · apply decode_matches_classic_algorithm
    intro step hstep
    have hs : step = (⟨⟨referencePolyline⟩⟩ : Step) := by simpa using hstep
    subst hs
    unfold WellFormedPolyline
    decide
  · unfold specDecodePoints referencePolyline
    norm_num [specDecodePointsF, specDelta, specVarint, specZigzag]

theorem decodeLoop_length (s : List Nat) :
    ∀ n index (lat lng : Int), s.length - index ≤ n →
      (decodeLoop s index lat lng).length * 2 ≤ s.length - index + 1 := by
  intro n
  induction n with
  | zero =>
      intro index lat lng hn
      rw [decodeLoop, dif_neg (by omega)]
      simp
  | succ m ih =>
      intro index lat lng hn
      by_cases hidx : index < s.length
      · rw [decodeLoop, dif_pos hidx]
        dsimp only
        have h1 := parseChunks_index_lt s index 0 0
        have h2 := parseChunks_index_lt s (parseChunks s index 0 0).2 0 0
        have ihh := ih (parseChunks s (parseChunks s index 0 0).2 0 0).2
          (lat + jsZigzag (parseChunks s index 0 0).1)
          (lng + jsZigzag (parseChunks s (parseChunks s index 0 0).2 0 0).1)
          (by omega)
        simp only [List.length_cons]
        omega
      · rw [decodeLoop, dif_neg hidx]
        simp

/-- C9: `decode` is total — it consumes any input, including truncated
strings and characters outside the expected range (whose `NaN`
comparisons end each chunk run), always terminating with a point list
whose length is bounded by the input sizes; each point costs at least
two characters of its record. -/
theorem decode_total (t : List Step) :
    (decode t).length * 2
      ≤ (t.map (fun step => step.polyline.points.length + 1)).sum := by
  unfold decode
  induction t with
  | nil => simp
  | cons st rest ih =>
      rw [List.flatMap_cons, List.map_cons, List.sum_cons]
      have hst := decodeLoop_length st.polyline.points
        st.polyline.points.length 0 0 0 (by omega)
      simp only [List.length_append]
      omega
